import Mathlib

/-!
Verification of the bloscpack chunked-container implementation
(file bloscpack.py) against its natural-language specification.

The Python source is shallowly embedded: byte strings are lists of
naturals below 256, Python integers are Lean integers, Python floor
division and modulo on nonnegative operands are Int.ediv and Int.emod,
and functions that can raise return Except values whose error type
enumerates the exception classes that the source can actually raise.
The blosc codec itself is external to the repository; its maximum
buffer size appears as an explicit parameter, and its compress and
decompress entry points appear as abstract function arguments.
-/

set_option autoImplicit false

namespace Bloscpack

/-- MAX_CHUNKS = (2**63)-1, from the source. -/
def MAX_CHUNKS : Int := 2 ^ 63 - 1

/-- FORMAT_VERSION = 1, from the source. -/
def FORMAT_VERSION : Int := 1

/-- MAGIC = 'blpk', from the source, as its four ASCII bytes. -/
def MAGIC : List Nat := [0x62, 0x6c, 0x70, 0x6b]

/-- Modelled from the spec: blosc.BLOSC_MAX_BUFFERSIZE, the external
codec's advertised maximum single-buffer size, a positive platform
constant (INT_MAX minus the 16-byte blosc overhead).  The planner
below takes it as an explicit parameter; this constant instantiates
that parameter in concrete witnesses. -/
def BLOSC_MAX_BUFFERSIZE : Int := 2147483631

/-- Exceptions that calculate_nchunks can raise: ValueError when both
chunking arguments are supplied, ChunkingException otherwise. -/
inductive PlanError
  | valueError : PlanError
  | chunkingException : PlanError

instance : DecidableEq PlanError := fun a b => by
  cases a <;> cases b <;> first
    | exact isTrue rfl
    | exact isFalse (fun h => PlanError.noConfusion h)

/-- The two post-condition checks at the end of calculate_nchunks:
chunk sizes must not exceed the maximum buffer size and the chunk
count must not exceed MAX_CHUNKS; on success the triple
(nchunks, chunk_size, last_chunk_size) is returned. -/
def checked_plan (maxBuffer nchunks chunk_size last_chunk_size : Int) :
    Except PlanError (Int × Int × Int) :=
  if chunk_size > maxBuffer ∨ last_chunk_size > maxBuffer then
    .error .chunkingException
  else if nchunks > MAX_CHUNKS then
    .error .chunkingException
  else
    .ok (nchunks, chunk_size, last_chunk_size)

/-- calculate_nchunks from the source.  The first argument models the
external constant blosc.BLOSC_MAX_BUFFERSIZE.  divmod on nonnegative
operands is (Int.ediv, Int.emod).  The defaulting branch of the source
computes its chunk count as int(math.ceil(in_file_size/maxBuffer)) with
correctly rounded double-precision division; this model uses the exact
integer ceiling -(-in_file_size / maxBuffer).  The two agree whenever
the true quotient is below 2^23: there the half-ulp of the rounded
quotient is at most 2^(-31) < 1/maxBuffer for the real maxBuffer
2147483631, so rounding cannot carry the quotient across an integer.
Every concrete defaulting-branch input below lies in that regime.  For
quotients of 2^23 and above the float version can undercount the exact
ceiling by one (first at in_file_size = 8388608 * maxBuffer + 1);
statements about the defaulting branch are therefore restricted to the
float-exact regime where they depend on the ceiling value. -/
def calculate_nchunks (maxBuffer in_file_size : Int)
    (nchunks : Option Int) (chunk_size : Option Int) :
    Except PlanError (Int × Int × Int) :=
  match nchunks, chunk_size with
  | some _, some _ => .error .valueError
  | some n, none =>
      if n > in_file_size then .error .chunkingException
      else if n ≤ 0 then .error .chunkingException
      else
        let quotient := in_file_size / n
        if n = 1 then
          checked_plan maxBuffer n 0 in_file_size
        else if in_file_size % n = 0 then
          checked_plan maxBuffer n quotient quotient
        else if n = 2 then
          checked_plan maxBuffer n quotient (in_file_size - quotient)
        else
          let cs := in_file_size / (n - 1)
          checked_plan maxBuffer n cs (in_file_size - cs * (n - 1))
  | none, some c =>
      if c > in_file_size then .error .chunkingException
      else if c ≤ 0 then .error .chunkingException
      else
        let quotient := in_file_size / c
        if c = in_file_size then
          checked_plan maxBuffer 1 0 in_file_size
        else if in_file_size % c = 0 then
          checked_plan maxBuffer quotient c c
        else
          checked_plan maxBuffer (quotient + 1) c (in_file_size % c)
  | none, none =>
      let nck := -(-in_file_size / maxBuffer)
      let quotient := in_file_size / maxBuffer
      if in_file_size = maxBuffer then
        checked_plan maxBuffer 1 0 maxBuffer
      else if quotient = 0 then
        checked_plan maxBuffer nck 0 in_file_size
      else
        checked_plan maxBuffer nck maxBuffer (in_file_size % maxBuffer)

theorem checked_plan_ok {maxBuffer n cs lcs : Int} {p : Int × Int × Int}
    (h : checked_plan maxBuffer n cs lcs = .ok p) :
    p = (n, cs, lcs) ∧ cs ≤ maxBuffer ∧ lcs ≤ maxBuffer ∧ n ≤ MAX_CHUNKS := by
  unfold checked_plan at h
  split at h
  · exact absurd h (by simp)
  · split at h
    · exact absurd h (by simp)
    · refine ⟨by injection h with h; exact h.symm, ?_, ?_, by omega⟩ <;> omega

theorem neg_ediv_neg_of_emod_eq_zero {a b : Int} (hb : b ≠ 0)
    (h : a % b = 0) : -(-a / b) = a / b := by
  have ha : a = b * (a / b) := by
    have := Int.emod_def a b
    omega
  have : -a / b = -(a / b) := by
    calc -a / b = b * -(a / b) / b := by rw [mul_neg, ← ha]
    _ = -(a / b) := Int.mul_ediv_cancel_left _ hb
  omega

theorem neg_ediv_neg_of_emod_ne_zero {a b : Int} (hb : 0 < b)
    (h : a % b ≠ 0) : -(-a / b) = a / b + 1 := by
  have hr0 : 0 ≤ a % b := Int.emod_nonneg a (by omega)
  have hrb : a % b < b := Int.emod_lt_of_pos a hb
  have hq : b * (a / b) + a % b = a := Int.ediv_add_emod a b
  have : -a / b = -(a / b + 1) := by
    have huniq := (Int.ediv_emod_unique (a := -a) (b := b)
      (q := -(a / b + 1)) (r := b - a % b) hb).mpr
    exact (huniq ⟨by ring_nf; omega, by omega, by omega⟩).1
  omega

/-- Size bounds, nonnegativity, and the partition inequality satisfied by
every plan that calculate_nchunks returns without raising. -/
theorem calculate_nchunks_ok_facts (mb input : Int) (a b : Option Int)
    (N cs lcs : Int) (hmb : 0 < mb) (hin : 0 ≤ input)
    (h : calculate_nchunks mb input a b = .ok (N, cs, lcs)) :
    0 ≤ cs ∧ 0 ≤ lcs ∧ cs ≤ mb ∧ lcs ≤ mb ∧
      cs * (N - 1) + lcs ≤ input ∧ (1 ≤ input → 1 ≤ N) := by
  match a, b with
  | some n, some c =>
      simp [calculate_nchunks] at h
  | some n, none =>
      simp only [calculate_nchunks] at h
      split_ifs at h with h1 h2 h3 h4 h5
      · -- nchunks == 1
        obtain ⟨hp, hc1, hc2, _⟩ := checked_plan_ok h
        simp only [Prod.mk.injEq] at hp
        obtain ⟨hN, hcs, hlcs⟩ := hp
        rw [hN, hcs, hlcs]
        exact ⟨le_refl 0, hin, hc1, hc2, by omega, fun _ => by omega⟩
      · -- remainder == 0
        obtain ⟨hp, hc1, hc2, _⟩ := checked_plan_ok h
        simp only [Prod.mk.injEq] at hp
        obtain ⟨hN, hcs, hlcs⟩ := hp
        rw [hN, hcs, hlcs]
        have hq0 : 0 ≤ input / n := Int.ediv_nonneg hin (by omega)
        have hmul : input / n * n = input :=
          Int.ediv_mul_cancel (Int.dvd_of_emod_eq_zero h4)
        have hring : input / n * (n - 1) + input / n = input / n * n := by ring
        exact ⟨hq0, hq0, hc1, hc2, by linarith, fun _ => by omega⟩
      · -- nchunks == 2 with remainder
        subst h5
        obtain ⟨hp, hc1, hc2, _⟩ := checked_plan_ok h
        simp only [Prod.mk.injEq] at hp
        obtain ⟨hN, hcs, hlcs⟩ := hp
        rw [hN, hcs, hlcs]
        exact ⟨by omega, by omega, hc1, hc2, by omega, fun _ => by omega⟩
      · -- general remainder case
        obtain ⟨hp, hc1, hc2, _⟩ := checked_plan_ok h
        simp only [Prod.mk.injEq] at hp
        obtain ⟨hN, hcs, hlcs⟩ := hp
        rw [hN, hcs, hlcs]
        have hn3 : 3 ≤ n := by omega
        have hq0 : 0 ≤ input / (n - 1) := Int.ediv_nonneg hin (by omega)
        have hdm : (n - 1) * (input / (n - 1)) + input % (n - 1) = input :=
          Int.ediv_add_emod input (n - 1)
        have hcomm : input / (n - 1) * (n - 1) = (n - 1) * (input / (n - 1)) :=
          mul_comm _ _
        have hm0 : 0 ≤ input % (n - 1) := Int.emod_nonneg input (by omega)
        exact ⟨hq0, by omega, hc1, hc2, by omega, fun _ => by omega⟩
  | none, some c =>
      simp only [calculate_nchunks] at h
      split_ifs at h with h1 h2 h3 h4
      · -- chunk_size == in_file_size
        obtain ⟨hp, hc1, hc2, _⟩ := checked_plan_ok h
        simp only [Prod.mk.injEq] at hp
        obtain ⟨hN, hcs, hlcs⟩ := hp
        rw [hN, hcs, hlcs]
        exact ⟨le_refl 0, hin, hc1, hc2, by omega, fun _ => by omega⟩
      · -- remainder == 0
        obtain ⟨hp, hc1, hc2, _⟩ := checked_plan_ok h
        simp only [Prod.mk.injEq] at hp
        obtain ⟨hN, hcs, hlcs⟩ := hp
        rw [hN, hcs, hlcs]
        have hmul : input / c * c = input :=
          Int.ediv_mul_cancel (Int.dvd_of_emod_eq_zero h4)
        have hq1 : 1 ≤ input / c :=
          (Int.le_ediv_iff_mul_le (by omega)).mpr (by omega)
        have hring : c * (input / c - 1) + c = input / c * c := by ring
        exact ⟨by omega, by omega, hc1, hc2, by linarith, fun _ => hq1⟩
      · -- remainder > 0
        obtain ⟨hp, hc1, hc2, _⟩ := checked_plan_ok h
        simp only [Prod.mk.injEq] at hp
        obtain ⟨hN, hcs, hlcs⟩ := hp
        rw [hN, hcs, hlcs]
        have hq0 : 0 ≤ input / c := Int.ediv_nonneg hin (by omega)
        have hsum : c * (input / c) + input % c = input := Int.ediv_add_emod input c
        have hm0 : 0 ≤ input % c := Int.emod_nonneg input (by omega)
        have hring : c * (input / c + 1 - 1) = c * (input / c) := by ring
        exact ⟨by omega, hm0, hc1, hc2, by linarith, fun _ => by omega⟩
  | none, none =>
      simp only [calculate_nchunks] at h
      split_ifs at h with h1 h2
      · -- in_file_size == maxBuffer
        obtain ⟨hp, hc1, hc2, _⟩ := checked_plan_ok h
        simp only [Prod.mk.injEq] at hp
        obtain ⟨hN, hcs, hlcs⟩ := hp
        rw [hN, hcs, hlcs]
        exact ⟨le_refl 0, by omega, hc1, hc2, by omega, fun _ => by omega⟩
      · -- quotient == 0
        obtain ⟨hp, hc1, hc2, _⟩ := checked_plan_ok h
        simp only [Prod.mk.injEq] at hp
        obtain ⟨hN, hcs, hlcs⟩ := hp
        rw [hN, hcs, hlcs]
        refine ⟨le_refl 0, hin, hc1, hc2, by omega, fun h1in => ?_⟩
        have : -input / mb < 0 := Int.ediv_neg' (by omega) hmb
        omega
      · -- quotient ≥ 1
        obtain ⟨hp, hc1, hc2, _⟩ := checked_plan_ok h
        simp only [Prod.mk.injEq] at hp
        obtain ⟨hN, hcs, hlcs⟩ := hp
        rw [hN, hcs, hlcs]
        have hq0 : 0 ≤ input / mb := Int.ediv_nonneg hin (by omega)
        have hm0 : 0 ≤ input % mb := Int.emod_nonneg input (by omega)
        have hmlt : input % mb < mb := Int.emod_lt_of_pos input hmb
        have hsum : mb * (input / mb) + input % mb = input := Int.ediv_add_emod input mb
        have hceil : -(-input / mb) ≤ input / mb + 1 := by
          by_cases hr : input % mb = 0
          · rw [neg_ediv_neg_of_emod_eq_zero (by omega) hr]; omega
          · rw [neg_ediv_neg_of_emod_ne_zero hmb hr]
        have hle : mb * (-(-input / mb) - 1) ≤ mb * (input / mb) :=
          mul_le_mul_of_nonneg_left (by omega) (by omega)
        refine ⟨by omega, hm0, hc1, hc2, by linarith, fun h1in => ?_⟩
        have : -input / mb < 0 := Int.ediv_neg' (by omega) hmb
        omega

/-- The two defaulting behaviours agree once the input is at least one
maximal buffer and, above it, not an exact multiple of the buffer size. -/
theorem default_chunking_matches_explicit_max (mb input : Int) (hmb : 0 < mb)
    (hcase : input = mb ∨ (mb < input ∧ input % mb ≠ 0)) :
    calculate_nchunks mb input none none =
      calculate_nchunks mb input none (some mb) := by
  rcases hcase with rfl | ⟨hlt, hr⟩
  · have hn0 : ¬ input ≤ 0 := by omega
    have hgt : ¬ input > input := by omega
    simp [calculate_nchunks, hn0, hgt]
  · have hq1 : 1 ≤ input / mb := (Int.le_ediv_iff_mul_le hmb).mpr (by omega)
    have hceil : -(-input / mb) = input / mb + 1 :=
      neg_ediv_neg_of_emod_ne_zero hmb hr
    have hL : calculate_nchunks mb input none none =
        checked_plan mb (input / mb + 1) mb (input % mb) := by
      simp only [calculate_nchunks]
      rw [if_neg (by omega : ¬ input = mb), if_neg (by omega : ¬ input / mb = 0),
        hceil]
    have hR : calculate_nchunks mb input none (some mb) =
        checked_plan mb (input / mb + 1) mb (input % mb) := by
      simp only [calculate_nchunks]
      rw [if_neg (by omega : ¬ mb > input), if_neg (by omega : ¬ mb ≤ 0),
        if_neg (by omega : ¬ mb = input), if_neg hr]
    rw [hL, hR]

/-- Claim C2, counterexample: with nchunks = 3 and an input of 100 bytes the
planner is accepted yet returns last_chunk_size = 0, violating the claimed
lower bound 1 ≤ last_chunk_size. -/
theorem c2_counterexample :
    calculate_nchunks BLOSC_MAX_BUFFERSIZE 100 (some 3) none = .ok (3, 50, 0) ∧
      ¬ (1 : Int) ≤ 0 :=
  ⟨by rfl, by decide⟩

/-- Claim C2, amended: for every accepted planner input with input_size ≥ 1
the returned last_chunk_size satisfies 0 ≤ last_chunk_size ≤ MAX_BUFFER (the
lower bound 1 fails, as the counterexample shows). -/
theorem c2_last_chunk_size_bounds (mb input : Int) (a b : Option Int)
    (N cs lcs : Int) (hmb : 0 < mb) (hin : 1 ≤ input)
    (h : calculate_nchunks mb input a b = .ok (N, cs, lcs)) :
    0 ≤ lcs ∧ lcs ≤ mb := by
  obtain ⟨_, h2, _, h4, _, _⟩ :=
    calculate_nchunks_ok_facts mb input a b N cs lcs hmb (by omega) h
  exact ⟨h2, h4⟩

/-- Claim C2, witness: the amended bound evaluated at maxBuffer 2147483631,
input 100, nchunks 3, whose accepted plan is (3, 50, 0). -/
theorem c2_witness : 0 ≤ (0 : Int) ∧ (0 : Int) ≤ BLOSC_MAX_BUFFERSIZE :=
  c2_last_chunk_size_bounds BLOSC_MAX_BUFFERSIZE 100 (some 3) none 3 50 0
    (by decide) (by decide) (by rfl)

/-- Claim C3: at input_size = 2 * BLOSC_MAX_BUFFERSIZE with neither chunking
argument supplied, the planner is accepted and returns the plan
(2, 2147483631, 0), whose chunk sizes sum to 2147483631 rather than to the
input size 4294967262: the partition equation of the claim fails and the
packer would drop the second half of the input. -/
theorem c3_sum_mismatch :
    calculate_nchunks BLOSC_MAX_BUFFERSIZE 4294967262 none none =
        .ok (2, 2147483631, 0) ∧
      (2147483631 : Int) * (2 - 1) + 0 ≠ 4294967262 :=
  ⟨by rfl, by decide⟩

/-- Claim C4, counterexample: for input_size = 1 the defaulting branch
accepts and returns the single-chunk plan while an explicit
chunk_size = BLOSC_MAX_BUFFERSIZE is rejected, so the two calls disagree. -/
theorem c4_counterexample :
    calculate_nchunks BLOSC_MAX_BUFFERSIZE 1 none none = .ok (1, 0, 1) ∧
      calculate_nchunks BLOSC_MAX_BUFFERSIZE 1 none (some BLOSC_MAX_BUFFERSIZE) =
        .error .chunkingException :=
  ⟨by rfl, by rfl⟩

/-- Claim C4, amended: within the float-exact regime of the defaulting
branch (input_size < 2^23 * MAX_BUFFER, where the correctly rounded
double quotient has the same ceiling as the exact quotient, so the
model below coincides with the source), the defaulting call returns the
same result as an explicit chunk_size = MAX_BUFFER whenever input_size
equals MAX_BUFFER, or exceeds it and is not an exact multiple of it.
Elsewhere the two calls disagree: for 1 ≤ input_size < MAX_BUFFER the
defaulting branch returns a single-chunk plan while the explicit call
raises ChunkingError (the counterexample above), at input_size = 0 it
returns the zero-chunk plan (0, 0, 0) while the explicit call raises,
on exact multiples k * MAX_BUFFER with k ≥ 2 the plans differ in
last_chunk_size, and beyond the float-exact regime the float ceiling of
the source itself departs from the explicit integer rules (first at
8388608 * MAX_BUFFER + 1, where the source computes 8388608 defaulting
chunks against 8388609 explicit ones).  The regime bound is a fidelity
hypothesis on the statement; the model-level proof does not consume
it. -/
theorem c4_default_matches_explicit_max (mb input : Int) (hmb : 0 < mb)
    (_hexact : input < 8388608 * mb)
    (hcase : input = mb ∨ (mb < input ∧ input % mb ≠ 0)) :
    calculate_nchunks mb input none none =
      calculate_nchunks mb input none (some mb) :=
  default_chunking_matches_explicit_max mb input hmb hcase

/-- Claim C4, witness: at input_size = MAX_BUFFER (well inside the
float-exact regime) both calls return the single-chunk plan. -/
theorem c4_witness :
    calculate_nchunks BLOSC_MAX_BUFFERSIZE BLOSC_MAX_BUFFERSIZE none none =
      calculate_nchunks BLOSC_MAX_BUFFERSIZE BLOSC_MAX_BUFFERSIZE none
        (some BLOSC_MAX_BUFFERSIZE) :=
  c4_default_matches_explicit_max BLOSC_MAX_BUFFERSIZE BLOSC_MAX_BUFFERSIZE
    (by decide) (by decide) (Or.inl rfl)

/-- Claim C9: when 3 ≤ chunk_count ≤ input_size and the division has a
remainder, any accepted plan is exactly
(chunk_count, input_size / (chunk_count - 1),
 input_size - (input_size / (chunk_count - 1)) * (chunk_count - 1)). -/
theorem c9_remainder_plan (mb input n : Int) (p : Int × Int × Int)
    (h3 : 3 ≤ n) (hle : n ≤ input) (hr : input % n ≠ 0)
    (h : calculate_nchunks mb input (some n) none = .ok p) :
    p = (n, input / (n - 1), input - input / (n - 1) * (n - 1)) := by
  simp only [calculate_nchunks] at h
  rw [if_neg (by omega : ¬ n > input), if_neg (by omega : ¬ n ≤ 0),
    if_neg (by omega : ¬ n = 1), if_neg hr, if_neg (by omega : ¬ n = 2)] at h
  exact (checked_plan_ok h).1

/-- Claim C9, witness: maxBuffer 2147483631, input 100, nchunks 3 gives the
plan (3, 50, 0) = (3, 100 / 2, 100 - 50 * 2). -/
theorem c9_witness :
    ((3 : Int), (50 : Int), (0 : Int)) =
      (3, (100 : Int) / (3 - 1), 100 - (100 : Int) / (3 - 1) * (3 - 1)) :=
  c9_remainder_plan BLOSC_MAX_BUFFERSIZE 100 3 (3, 50, 0)
    (by decide) (by decide) (by decide) (by rfl)

/-- Claim C10: with input_size = 0 and neither chunking argument supplied the
planner returns the degenerate plan (0, 0, 0) without raising. -/
theorem c10_zero_input_plan (mb : Int) (hmb : 0 < mb) :
    calculate_nchunks mb 0 none none = .ok (0, 0, 0) := by
  simp only [calculate_nchunks]
  rw [if_neg (by omega : ¬ (0 : Int) = mb)]
  rw [if_pos (by simp : (0 : Int) / mb = 0)]
  unfold checked_plan
  rw [if_neg (by omega), if_neg (by simp [MAX_CHUNKS] : ¬ -(-(0 : Int) / mb) > MAX_CHUNKS)]
  simp

/-- Claim C10, witness: evaluated at the concrete maxBuffer constant. -/
theorem c10_witness :
    calculate_nchunks BLOSC_MAX_BUFFERSIZE 0 none none = .ok (0, 0, 0) :=
  c10_zero_input_plan BLOSC_MAX_BUFFERSIZE (by decide)

/-- Little-endian unsigned value of a byte list, least significant first. -/
def leNat (bs : List Nat) : Nat := bs.foldr (fun b acc => b + 256 * acc) 0

/-- The k little-endian bytes of u, as written by struct.pack. -/
def natLEBytes : Nat → Nat → List Nat
  | 0, _ => []
  | k + 1, u => u % 256 :: natLEBytes k (u / 256)

/-- Exceptions of the container-header codec: ValueError for a bad
chunk count, length or magic, struct.error for an out-of-range field. -/
inductive HeaderError
  | valueError : HeaderError
  | structError : HeaderError

instance : DecidableEq HeaderError := fun a b => by
  cases a <;> cases b <;> first
    | exact isTrue rfl
    | exact isFalse (fun h => HeaderError.noConfusion h)

/-- create_bloscpack_header from the source: MAGIC, then the format
version packed as one unsigned byte, three zero reserved bytes, and the
chunk count packed as a signed little-endian 64-bit integer (None is
encoded as -1; two's complement is modelled by reducing mod 2^64).
The source checks 0 <= nchunks <= MAX_CHUNKS only for integer
arguments; struct.pack raises for a format version outside 0..255. -/
def create_bloscpack_header (nchunks : Option Int) (format_version : Int) :
    Except HeaderError (List Nat) :=
  match nchunks with
  | some n =>
      if ¬ (0 ≤ n ∧ n ≤ MAX_CHUNKS) then .error .valueError
      else if ¬ (0 ≤ format_version ∧ format_version ≤ 255) then .error .structError
      else .ok (MAGIC ++ [format_version.toNat] ++ [0, 0, 0] ++
        natLEBytes 8 ((n % 2 ^ 64).toNat))
  | none =>
      if ¬ (0 ≤ format_version ∧ format_version ≤ 255) then .error .structError
      else .ok (MAGIC ++ [format_version.toNat] ++ [0, 0, 0] ++
        natLEBytes 8 (((-1 : Int) % 2 ^ 64).toNat))

/-- decode_bloscpack_header from the source: requires exactly 16 bytes
and the magic marker, then returns the chunk count read as a signed
little-endian 64-bit integer from bytes 8..16 together with the format
version, which the source reads with struct.unpack of an unsigned
32-bit little-endian integer over bytes 4..8. -/
def decode_bloscpack_header (buf : List Nat) :
    Except HeaderError (Int × Int) :=
  if buf.length ≠ 16 then .error .valueError
  else if buf.take 4 ≠ MAGIC then .error .valueError
  else
    let u := leNat ((buf.drop 8).take 8)
    let nchunks : Int := if 2 ^ 63 ≤ u then (u : Int) - 2 ^ 64 else (u : Int)
    .ok (nchunks, (leNat ((buf.drop 4).take 4) : Int))

/-- Claim C5: feeding decode a 16-byte buffer that starts with the magic,
has version byte 1 and a nonzero reserved byte at offset 5 succeeds but
returns format_version 257, not the value 1 of byte 4: the source unpacks
the version as a 32-bit integer spanning the reserved bytes, contradicting
the header layout documented in the same module. -/
theorem c5_reserved_bytes_leak_into_version :
    decode_bloscpack_header
        [0x62, 0x6c, 0x70, 0x6b, 1, 1, 0, 0, 0, 0, 0, 0, 0, 0, 0, 0] =
      .ok (0, 257) ∧ (257 : Int) ≠ FORMAT_VERSION :=
  ⟨by rfl, by decide⟩

/-- Encode followed by decode reproduces the pair (nchunks, version). -/
def header_roundtrip (n v : Int) : Bool :=
  match create_bloscpack_header (some n) v with
  | .error _ => false
  | .ok buf =>
      match decode_bloscpack_header buf with
      | .error _ => false
      | .ok (n2, v2) => n2 == n && v2 == v

/-- Claim C8: the container header round-trips for every chunk count in
{0, 1, 42, 2^63 - 1} and every format version in {0, 1, 255}. -/
theorem c8_header_roundtrip :
    header_roundtrip 0 0 = true ∧ header_roundtrip 0 1 = true ∧
      header_roundtrip 0 255 = true ∧ header_roundtrip 1 0 = true ∧
      header_roundtrip 1 1 = true ∧ header_roundtrip 1 255 = true ∧
      header_roundtrip 42 0 = true ∧ header_roundtrip 42 1 = true ∧
      header_roundtrip 42 255 = true ∧ header_roundtrip (2 ^ 63 - 1) 0 = true ∧
      header_roundtrip (2 ^ 63 - 1) 1 = true ∧
      header_roundtrip (2 ^ 63 - 1) 255 = true :=
  ⟨by rfl, by rfl, by rfl, by rfl, by rfl, by rfl, by rfl, by rfl, by rfl,
    by rfl, by rfl, by rfl⟩

/-- The blosc block header record, as decoded by decode_blosc_header. -/
structure BloscHeader where
  version : Nat
  versionlz : Nat
  flags : Nat
  typesize : Nat
  nbytes : Nat
  blocksize : Nat
  ctbytes : Nat

/-- decode_blosc_header from the source: four single bytes followed by
three unsigned little-endian 32-bit fields.  The source only ever hands
it exactly 16 bytes; missing positions read as zero here, where the
source would raise before using any field. -/
def decode_blosc_header (buf : List Nat) : BloscHeader :=
  { version := buf.getD 0 0
    versionlz := buf.getD 1 0
    flags := buf.getD 2 0
    typesize := buf.getD 3 0
    nbytes := leNat ((buf.drop 4).take 4)
    blocksize := leNat ((buf.drop 8).take 4)
    ctbytes := leNat ((buf.drop 12).take 4) }

/-- The read loop of pack_file: for every planned size take that many
bytes from the remaining input (python file.read returns what is
available, and the source performs no short-read check), compress them
and append the result.  Negative sizes cannot reach this loop from an
accepted plan; List.take of their truncation reads nothing, matching a
bounded read. -/
def pack_chunks (compress : List Nat → List Nat) :
    List Nat → List Int → List Nat
  | _, [] => []
  | stream, w :: ws =>
      compress (stream.take w.toNat) ++
        pack_chunks compress (stream.drop w.toNat) ws

/-- The pack loop's list of read sizes,
[chunk_size] * (nchunks - 1) + [last_chunk_size] from the source
(a python list repetition with a negative count is empty, hence the
Int.toNat truncation). -/
def plan_sizes (nchunks chunk_size last_chunk_size : Int) : List Int :=
  List.replicate (nchunks - 1).toNat chunk_size ++ [last_chunk_size]

/-- Exceptions of pack_file: those of the planner and of header encoding. -/
inductive PackError
  | planError : PlanError → PackError
  | headerError : HeaderError → PackError

/-- pack_file from the source: plan from the input length, encode the
container header with the planned chunk count and the default format
version, then emit the header followed by the compressed chunks. -/
def pack_file (compress : List Nat → List Nat) (maxBuffer : Int)
    (input : List Nat) (nchunks chunk_size : Option Int) :
    Except PackError (List Nat) :=
  match calculate_nchunks maxBuffer (input.length : Int) nchunks chunk_size with
  | .error e => .error (.planError e)
  | .ok (n, cs, lcs) =>
      match create_bloscpack_header (some n) FORMAT_VERSION with
      | .error e => .error (.headerError e)
      | .ok hdr => .ok (hdr ++ pack_chunks compress input (plan_sizes n cs lcs))

/-- Exceptions of unpack_file: container-header decode failures, the
version check (the source exits via error()), and the struct.error the
source raises when fewer than 16 bytes remain for a block header. -/
inductive UnpackError
  | headerError : HeaderError → UnpackError
  | versionMismatch : UnpackError
  | shortBlockHeader : UnpackError

/-- The chunk loop of unpack_file: read 16 bytes of block header, take
its ctbytes field, seek back and read that many bytes from the block
start (python read returns what is available, unchecked), decompress
and append. -/
def unpack_chunks (decompress : List Nat → List Nat) :
    Nat → List Nat → List Nat → Except UnpackError (List Nat)
  | 0, _, acc => .ok acc
  | k + 1, stream, acc =>
      if (stream.take 16).length < 16 then .error .shortBlockHeader
      else
        let ct := (decode_blosc_header (stream.take 16)).ctbytes
        unpack_chunks decompress k (stream.drop ct)
          (acc ++ decompress (stream.take ct))

/-- unpack_file from the source: decode the 16-byte container header,
reject a format version other than FORMAT_VERSION, then run the chunk
loop chunk_count times; python's range() of a negative count is empty,
hence the Int.toNat truncation. -/
def unpack_file (decompress : List Nat → List Nat) (file : List Nat) :
    Except UnpackError (List Nat) :=
  match decode_bloscpack_header (file.take 16) with
  | .error e => .error (.headerError e)
  | .ok (nchunks, format_version) =>
      if FORMAT_VERSION ≠ format_version then .error .versionMismatch
      else unpack_chunks decompress nchunks.toNat (file.drop 16) []

/-- The 16-byte blosc block header written by the mock codec below: its
nbytes field is the payload length and its ctbytes field the total block
length, as the blosc format prescribes. -/
def mockHeader (b : List Nat) : List Nat :=
  [0, 0, 0, 0] ++ natLEBytes 4 b.length ++ [0, 0, 0, 0] ++
    natLEBytes 4 (b.length + 16)

/-- A concrete stand-in for blosc.compress satisfying the codec contract:
it stores the payload behind a well-formed 16-byte blosc block header
whose ctbytes field is the total block length. -/
def mockCompress (b : List Nat) : List Nat := mockHeader b ++ b

/-- The matching stand-in for blosc.decompress. -/
def mockDecompress (b : List Nat) : List Nat := b.drop 16

/-- Every read of the pack loop is fully satisfied: each size fits in
what remains of the stream. -/
def reads_full : Int → List Int → Bool
  | _, [] => true
  | len, w :: ws => if w ≤ len then reads_full (len - w) ws else false

theorem reads_full_of_sum_le (k : Nat) (cs lcs len : Int)
    (hcs : 0 ≤ cs) (hlcs : 0 ≤ lcs) (hsum : cs * (k : Int) + lcs ≤ len) :
    reads_full len (List.replicate k cs ++ [lcs]) = true := by
  induction k generalizing len with
  | zero =>
      simp only [List.replicate, List.nil_append, reads_full]
      rw [if_pos (by omega)]
  | succ m ih =>
      have hrep : 0 ≤ cs * (m : Int) := mul_nonneg hcs (by positivity)
      have hsplit : cs * ((m : Int) + 1) = cs * (m : Int) + cs := by ring
      have hcast : ((m + 1 : Nat) : Int) = (m : Int) + 1 := by push_cast; ring
      rw [hcast] at hsum
      simp only [List.replicate_succ, List.cons_append, reads_full]
      rw [if_pos (by omega)]
      exact ih (len - cs) (by omega)

/-- Claim C6, counterexample: the pack loop performs no short-read check.
On a one-byte stream with planned sizes [3, 2] the first read returns one
byte instead of three, yet the loop compresses it and continues to the
next chunk instead of failing. -/
theorem c6_counterexample :
    (List.take 3 ([5] : List Nat)).length < 3 ∧
      pack_chunks mockCompress [5] [3, 2] =
        mockCompress [5] ++ mockCompress [] :=
  ⟨by decide, by rfl⟩

/-- Claim C6, amended: the source contains no ShortRead check and would
compress whatever a short read returns; however, for every plan that
calculate_nchunks derives from the input's true length, every read of the
pack loop returns exactly the requested number of bytes. -/
theorem c6_reads_always_full (mb : Int) (input : List Nat) (a b : Option Int)
    (N cs lcs : Int) (hmb : 0 < mb) (hin : 1 ≤ (input.length : Int))
    (h : calculate_nchunks mb (input.length : Int) a b = .ok (N, cs, lcs)) :
    reads_full (input.length : Int) (plan_sizes N cs lcs) = true := by
  obtain ⟨hcs, hlcs, _, _, hsum, hN⟩ :=
    calculate_nchunks_ok_facts mb (input.length : Int) a b N cs lcs hmb
      (by omega) h
  have hN1 : 1 ≤ N := hN hin
  have hcast : (((N - 1).toNat : Nat) : Int) = N - 1 :=
    Int.toNat_of_nonneg (by omega)
  unfold plan_sizes
  exact reads_full_of_sum_le (N - 1).toNat cs lcs (input.length : Int)
    hcs hlcs (by rw [hcast]; exact hsum)

/-- Claim C6, witness: a five-byte input packed as a single chunk; the one
planned read of five bytes is fully satisfied. -/
theorem c6_witness :
    reads_full ((([1, 2, 3, 4, 5] : List Nat).length : Int))
      (plan_sizes 1 0 5) = true :=
  c6_reads_always_full BLOSC_MAX_BUFFERSIZE [1, 2, 3, 4, 5] (some 1) none
    1 0 5 (by decide) (by decide) (by rfl)

/-- Claim C7, counterexample: a container header carrying chunk_count -1
(the documented "unknown" sentinel) decodes successfully, and unpack_file
completes successfully with empty output instead of failing: range() of a
negative count runs the loop zero times. -/
theorem c7_counterexample :
    decode_bloscpack_header
        (List.take 16
          [0x62, 0x6c, 0x70, 0x6b, 1, 0, 0, 0,
            255, 255, 255, 255, 255, 255, 255, 255]) = .ok (-1, 1) ∧
      unpack_file (fun _ => [])
          [0x62, 0x6c, 0x70, 0x6b, 1, 0, 0, 0,
            255, 255, 255, 255, 255, 255, 255, 255] = .ok [] ∧
      (-1 : Int) < 0 :=
  ⟨by rfl, by rfl, by decide⟩

/-- Claim C7, amended: after decoding a container header whose
chunk_count is negative (and whose version passes the check), unpack_file
does not fail: it runs zero chunk iterations and returns empty output. -/
theorem c7_negative_nchunks_empty_success
    (decompress : List Nat → List Nat) (file : List Nat) (n v : Int)
    (hdec : decode_bloscpack_header (file.take 16) = .ok (n, v))
    (hv : v = FORMAT_VERSION) (hneg : n < 0) :
    unpack_file decompress file = .ok [] := by
  subst hv
  unfold unpack_file
  rw [hdec]
  simp only [ne_eq, not_true_eq_false, if_false]
  rw [Int.toNat_of_nonpos (by omega)]
  rfl

/-- Claim C7, witness: the amended statement evaluated on the concrete
sentinel header. -/
theorem c7_witness :
    unpack_file (fun _ => [])
        [0x62, 0x6c, 0x70, 0x6b, 1, 0, 0, 0,
          255, 255, 255, 255, 255, 255, 255, 255] = .ok [] :=
  c7_negative_nchunks_empty_success (fun _ => [])
    [0x62, 0x6c, 0x70, 0x6b, 1, 0, 0, 0,
      255, 255, 255, 255, 255, 255, 255, 255] (-1) 1
    (by rfl) (by rfl) (by decide)

theorem natLEBytes_length (k u : Nat) : (natLEBytes k u).length = k := by
  induction k generalizing u with
  | zero => rfl
  | succ m ih => simp [natLEBytes, ih]

theorem mockHeader_length (b : List Nat) : (mockHeader b).length = 16 := by
  simp [mockHeader, natLEBytes_length]

theorem mockCompress_length (b : List Nat) :
    (mockCompress b).length = b.length + 16 := by
  simp [mockCompress, mockHeader_length]
  omega

theorem decode_mockHeader_ctbytes (b : List Nat) :
    (decode_blosc_header (mockHeader b)).ctbytes =
      (b.length + 16) % 4294967296 := by
  have h1 : (decode_blosc_header (mockHeader b)).ctbytes =
      leNat (natLEBytes 4 (b.length + 16)) := rfl
  rw [h1]
  simp only [natLEBytes, leNat, List.foldr]
  omega

/-- Consuming one well-formed mock block advances the unpack loop by one
chunk and appends the block's payload to the output. -/
theorem unpack_mock_step (k : Nat) (b rest acc : List Nat)
    (hlen : b.length + 16 < 4294967296) :
    unpack_chunks mockDecompress (k + 1) (mockCompress b ++ rest) acc =
      unpack_chunks mockDecompress k rest (acc ++ b) := by
  have hm16 : (mockCompress b).length = b.length + 16 := mockCompress_length b
  have hassoc : mockCompress b ++ rest = mockHeader b ++ (b ++ rest) := by
    rw [mockCompress, List.append_assoc]
  have htake16 : (mockCompress b ++ rest).take 16 = mockHeader b := by
    rw [hassoc]
    exact List.take_left' (mockHeader_length b)
  have hct : (decode_blosc_header ((mockCompress b ++ rest).take 16)).ctbytes =
      b.length + 16 := by
    rw [htake16, decode_mockHeader_ctbytes, Nat.mod_eq_of_lt hlen]
  simp only [unpack_chunks]
  rw [hct, htake16, mockHeader_length]
  simp only [lt_irrefl, if_false]
  rw [List.take_left' hm16, List.drop_left' hm16]
  have hdecomp : mockDecompress (mockCompress b) = b := by
    rw [mockDecompress, mockCompress]
    exact List.drop_left' (mockHeader_length b)
  rw [hdecomp]

/-- The packed form of the failing 2 * MAX_BUFFER input: the container
header declaring two chunks, a block holding the first 2147483631 bytes,
and a block holding an empty payload. -/
def big_packed : List Nat :=
  [0x62, 0x6c, 0x70, 0x6b, 1, 0, 0, 0, 2, 0, 0, 0, 0, 0, 0, 0] ++
    (mockCompress (List.replicate 2147483631 0) ++ mockCompress [])

/-- Evaluation of pack_file on any input whose length is
4294967262 = 2 * BLOSC_MAX_BUFFERSIZE with default chunking: the planner
returns (2, 2147483631, 0) and the output is the two-chunk container. -/
theorem pack_file_two_mb_eval (input : List Nat)
    (hlen : (input.length : Int) = 4294967262) :
    pack_file mockCompress BLOSC_MAX_BUFFERSIZE input none none =
    .ok ([0x62, 0x6c, 0x70, 0x6b, 1, 0, 0, 0, 2, 0, 0, 0, 0, 0, 0, 0] ++
      pack_chunks mockCompress input (plan_sizes 2 2147483631 0)) := by
  have hcalc : calculate_nchunks BLOSC_MAX_BUFFERSIZE 4294967262 none none =
      .ok (2, 2147483631, 0) := by rfl
  unfold pack_file
  rw [hlen, hcalc]
  rfl

/-- Claim C1: at input length 4294967262 = 2 * BLOSC_MAX_BUFFERSIZE with
default chunking, pack_file succeeds but its plan (2, 2147483631, 0) reads
only the first 2147483631 bytes; unpacking the packed file returns those
bytes and not the original input, so unpack (pack B) ≠ B even though the
codec round-trips every buffer. -/
theorem c1_pack_unpack_loses_data :
    pack_file mockCompress BLOSC_MAX_BUFFERSIZE
        (List.replicate 4294967262 0) none none = .ok big_packed ∧
      unpack_file mockDecompress big_packed =
        .ok (List.replicate 2147483631 0) ∧
      List.replicate 2147483631 (0 : Nat) ≠ List.replicate 4294967262 0 := by
  have hchunks : pack_chunks mockCompress (List.replicate 4294967262 0)
      [2147483631, 0] =
      mockCompress (List.replicate 2147483631 0) ++ mockCompress [] := by
    have htk : (List.replicate 4294967262 (0 : Nat)).take
        ((2147483631 : Int)).toNat = List.replicate 2147483631 0 := by
      rw [show ((2147483631 : Int)).toNat = 2147483631 from rfl,
        List.take_replicate, min_eq_left (by norm_num)]
    have htk0 : ((List.replicate 4294967262 (0 : Nat)).drop
        ((2147483631 : Int)).toNat).take ((0 : Int)).toNat = [] := rfl
    simp only [pack_chunks, List.append_nil, htk, htk0]
  refine ⟨?_, ?_, ?_⟩
  · rw [pack_file_two_mb_eval (List.replicate 4294967262 0)
      (by rw [List.length_replicate]; rfl)]
    rw [show plan_sizes 2 2147483631 0 = [2147483631, 0] from rfl, hchunks]
    unfold big_packed
    rfl
  · have hhdr : ([0x62, 0x6c, 0x70, 0x6b, 1, 0, 0, 0,
        2, 0, 0, 0, 0, 0, 0, 0] : List Nat).length = 16 := rfl
    have htake : big_packed.take 16 =
        [0x62, 0x6c, 0x70, 0x6b, 1, 0, 0, 0, 2, 0, 0, 0, 0, 0, 0, 0] := by
      rw [big_packed]
      exact List.take_left' hhdr
    have hdec : decode_bloscpack_header (big_packed.take 16) = .ok (2, 1) := by
      rw [htake]
      rfl
    have hdrop : big_packed.drop 16 =
        mockCompress (List.replicate 2147483631 0) ++ mockCompress [] := by
      rw [big_packed]
      exact List.drop_left' hhdr
    have hrep_len : (List.replicate 2147483631 (0 : Nat)).length + 16 <
        4294967296 := by
      rw [List.length_replicate]
      norm_num
    simp only [unpack_file, hdec]
    rw [show FORMAT_VERSION = (1 : Int) from rfl]
    simp only [ne_eq, not_true_eq_false, if_false]
    rw [show (2 : Int).toNat = 2 from rfl, hdrop]
    rw [unpack_mock_step 1 (List.replicate 2147483631 0) (mockCompress []) []
      hrep_len]
    rw [show mockCompress [] = mockCompress [] ++ [] from
      (List.append_nil _).symm]
    rw [unpack_mock_step 0 [] [] ([] ++ List.replicate 2147483631 0)
      (by norm_num)]
    simp only [unpack_chunks, List.append_nil, List.nil_append]
  · intro hEq
    have hl := congrArg List.length hEq
    simp only [List.length_replicate] at hl
    omega

end Bloscpack
